import Mathlib

/-!
Shallow embedding of the resume-performance analytics engine of GradTracker,
the `ResumeInsights` component in `src/components/ResumesDisplay.tsx`
(functions `calculateAnalytics`, `getTopPerformingResume`, `getOverallStats`,
`getChartData`, `getRecommendations`).

Modelling conventions:
* JavaScript numbers are modelled as rationals (`ℚ`); the per-status counters,
  which the code only ever increments by 1, are modelled as naturals.
* The JavaScript object `resumeStats` is modelled as an insertion-ordered
  association list: assigning to an existing key keeps its position and
  replaces its value, assigning to a fresh key appends it; `Object.values`
  is the list of values in that order.
* `Application.resumeId` has TypeScript type `string | null | undefined`
  (optional field, and the create path stores `null`); it is modelled as
  `Option String`. The edit path (`handleUpdateApplication`) can store the
  empty string, and the analytics code tests the field with JavaScript
  truthiness, so the empty string behaves like an absent reference there.
* `Math.round x` is `⌊x + 1/2⌋`, which is Mathlib `round` on `ℚ`.
* Recommendation strings are modelled as a tagged message type carrying the
  data interpolated into the string; the surrounding fixed text is not
  load-bearing for any property considered here.
-/

namespace GradTracker

/-- Pipeline status of an application: the 5-stage variant used by the
analytics component (`'to-apply' | 'applied' | 'interviewing' | 'offer' |
'rejected'`). -/
inductive Status where
  | toApply
  | applied
  | interviewing
  | offer
  | rejected
deriving DecidableEq, Repr

/-- One job-application record, as read by the analytics component.
The timestamp fields are never read by the analytics and are modelled as
opaque naturals. -/
structure Application where
  id : String
  jobTitle : String
  company : String
  status : Status
  resumeId : Option String
  createdAt : Nat
  updatedAt : Nat
deriving DecidableEq, Repr

/-- One uploaded resume record, as read by the analytics component. -/
structure Resume where
  id : String
  name : String
  originalFileName : String
  uploadDate : Nat
deriving DecidableEq, Repr

/-- The per-resume analytics record (interface `ResumeAnalytics`). -/
structure ResumeAnalytics where
  resumeId : String
  resumeName : String
  totalApplications : Nat
  toApplyCount : Nat
  appliedCount : Nat
  interviewingCount : Nat
  offerCount : Nat
  rejectedCount : Nat
  applyRate : ℚ
  interviewRate : ℚ
  offerRate : ℚ
  overallSuccessRate : ℚ
  averageTimeToResponse : ℚ
deriving DecidableEq, Repr

/-- JavaScript truthiness of the optional `resumeId` field: `null`,
`undefined` and the empty string are falsy. -/
def truthyId : Option String → Bool
  | none => false
  | some s => s != ""

/-- The JavaScript object `resumeStats`, as an insertion-ordered
association list from resume id to accumulator. -/
abbrev StatsMap := List (String × ResumeAnalytics)

/-- Property read `resumeStats[k]`. -/
def objLookup (k : String) : StatsMap → Option ResumeAnalytics
  | [] => none
  | (key, v) :: rest => if key = k then some v else objLookup k rest

/-- Property write `resumeStats[k] = v`: an existing key keeps its position
and gets the new value, a fresh key is appended. -/
def objInsert (k : String) (v : ResumeAnalytics) : StatsMap → StatsMap
  | [] => [(k, v)]
  | (key, w) :: rest => if key = k then (key, v) :: rest else (key, w) :: objInsert k v rest

/-- In-place mutation of the object stored at key `k` (the JS code mutates
the accumulator it read with `resumeStats[app.resumeId]`). -/
def objUpdate (k : String) (f : ResumeAnalytics → ResumeAnalytics) : StatsMap → StatsMap
  | [] => []
  | (key, w) :: rest => if key = k then (key, f w) :: rest else (key, w) :: objUpdate k f rest

/-- The zeroed accumulator created for each resume
(`ResumesDisplay.tsx` lines 245-261). -/
def initEntry (r : Resume) : ResumeAnalytics :=
  { resumeId := r.id
    resumeName := r.name
    totalApplications := 0
    toApplyCount := 0
    appliedCount := 0
    interviewingCount := 0
    offerCount := 0
    rejectedCount := 0
    applyRate := 0
    interviewRate := 0
    offerRate := 0
    overallSuccessRate := 0
    averageTimeToResponse := 0 }

/-- The initialization pass `resumes.forEach(...)` of `calculateAnalytics`. -/
def initStats (resumes : List Resume) : StatsMap :=
  resumes.foldl (fun st r => objInsert r.id (initEntry r) st) []

/-- The body of the counting `switch`: increment `totalApplications` and the
counter of the application status (lines 267-285). -/
def bumpStatus (st : Status) (s : ResumeAnalytics) : ResumeAnalytics :=
  let s := { s with totalApplications := s.totalApplications + 1 }
  match st with
  | Status.toApply => { s with toApplyCount := s.toApplyCount + 1 }
  | Status.applied => { s with appliedCount := s.appliedCount + 1 }
  | Status.interviewing => { s with interviewingCount := s.interviewingCount + 1 }
  | Status.offer => { s with offerCount := s.offerCount + 1 }
  | Status.rejected => { s with rejectedCount := s.rejectedCount + 1 }

/-- One step of the counting pass `applications.forEach(...)` (lines
264-287). The JS guard is `app.resumeId && resumeStats[app.resumeId]`, so a
null, undefined or empty-string `resumeId` is skipped, as is an id with no
accumulator (a dangling reference). -/
def tallyApp (st : StatsMap) (a : Application) : StatsMap :=
  match a.resumeId with
  | none => st
  | some rid =>
      if rid != "" && (objLookup rid st).isSome then objUpdate rid (bumpStatus a.status) st
      else st

/-- The rate pass over one accumulator (lines 290-311): each guarded JS
assignment becomes a guarded field update, the `else` branch keeping the
previous field value exactly as an unexecuted assignment does. -/
def computeRates (s : ResumeAnalytics) : ResumeAnalytics :=
  if s.totalApplications > 0 then
    let progressedFromToApply :=
      s.appliedCount + s.interviewingCount + s.offerCount + s.rejectedCount
    let appliedTotal := s.appliedCount + s.interviewingCount + s.offerCount + s.rejectedCount
    let interviewingTotal := s.interviewingCount + s.offerCount
    { s with
      applyRate := (progressedFromToApply : ℚ) / (s.totalApplications : ℚ) * 100
      interviewRate :=
        if appliedTotal > 0 then
          ((s.interviewingCount : ℚ) + (s.offerCount : ℚ)) / (appliedTotal : ℚ) * 100
        else s.interviewRate
      offerRate :=
        if interviewingTotal > 0 then
          (s.offerCount : ℚ) / (interviewingTotal : ℚ) * 100
        else s.offerRate
      overallSuccessRate := (s.offerCount : ℚ) / (s.totalApplications : ℚ) * 100 }
  else s

/-- `calculateAnalytics` (lines 241-316): initialize an accumulator per
resume, tally the applications, compute the rates, and keep only the
accumulators with at least one application. -/
def calculateAnalytics (applications : List Application) (resumes : List Resume) :
    List ResumeAnalytics :=
  let resumeStats := applications.foldl tallyApp (initStats resumes)
  ((resumeStats.map Prod.snd).map computeRates).filter (fun s => s.totalApplications > 0)

/-- `getTopPerformingResume` (lines 318-323): `Array.reduce` without an
initial value, keeping `current` only on a strictly greater
`overallSuccessRate`. -/
def getTopPerformingResume (analytics : List ResumeAnalytics) : Option ResumeAnalytics :=
  match analytics with
  | [] => none
  | x :: xs =>
      some (xs.foldl
        (fun best current =>
          if best.overallSuccessRate < current.overallSuccessRate then current else best)
        x)

/-- The overall cross-resume statistics (`getOverallStats`, lines 329-341). -/
structure OverallStats where
  totalApplications : Nat
  overallSuccessRate : ℚ
  overallInterviewRate : ℚ
  averageApplicationsPerResume : ℚ
deriving DecidableEq, Repr

/-- `getOverallStats` (lines 329-341); `applications.filter(app =>
app.resumeId)` keeps the truthy references only. -/
def getOverallStats (applications : List Application) (analytics : List ResumeAnalytics) :
    OverallStats :=
  let totalWithResume := applications.filter (fun a => truthyId a.resumeId)
  let offers := totalWithResume.filter (fun a => a.status = Status.offer)
  let interviews := totalWithResume.filter
    (fun a => a.status = Status.interviewing || a.status = Status.offer)
  let applied := totalWithResume.filter
    (fun a => a.status = Status.applied || a.status = Status.interviewing
      || a.status = Status.offer || a.status = Status.rejected)
  { totalApplications := totalWithResume.length
    overallSuccessRate :=
      if totalWithResume.length > 0 then
        ((offers.length : ℚ) / (totalWithResume.length : ℚ)) * 100
      else 0
    overallInterviewRate :=
      if applied.length > 0 then ((interviews.length : ℚ) / (applied.length : ℚ)) * 100
      else 0
    averageApplicationsPerResume :=
      if analytics.length > 0 then (totalWithResume.length : ℚ) / (analytics.length : ℚ)
      else 0 }

/-- The selectable chart metric (`'applications' | 'success' | 'interview'`). -/
inductive ChartMetric where
  | applications
  | success
  | interview
deriving DecidableEq, Repr

/-- One chart point produced by `getChartData`. -/
structure ChartPoint where
  name : String
  value : ℚ
  fullName : String
deriving DecidableEq, Repr

/-- The display-label truncation inside `getChartData`: names longer than 15
code units are cut to 15 and suffixed with an ellipsis marker. -/
def truncateName (n : String) : String :=
  if n.length > 15 then n.take 15 ++ "..." else n

/-- `getChartData` (lines 343-366): raw count for the applications metric,
`Math.round(rate * 10) / 10` for the two rate metrics. -/
def getChartData (metric : ChartMetric) (analytics : List ResumeAnalytics) :
    List ChartPoint :=
  match metric with
  | ChartMetric.applications =>
      analytics.map (fun s =>
        { name := truncateName s.resumeName
          value := (s.totalApplications : ℚ)
          fullName := s.resumeName })
  | ChartMetric.success =>
      analytics.map (fun s =>
        let rounded : ℤ := round (s.overallSuccessRate * 10)
        { name := truncateName s.resumeName
          value := (rounded : ℚ) / 10
          fullName := s.resumeName })
  | ChartMetric.interview =>
      analytics.map (fun s =>
        let rounded : ℤ := round (s.interviewRate * 10)
        { name := truncateName s.resumeName
          value := (rounded : ℚ) / 10
          fullName := s.resumeName })

/-- The recommendation messages of `getRecommendations`, as a tagged type
carrying the data interpolated into each string. -/
inductive Recommendation where
  | startLinking
  | topPerformer (resumeName : String) (successRate : ℚ)
  | improveInterviewRate
  | improveSuccessRate
  | updateOrReplace (resumeNames : List String)
  | greatJob
deriving DecidableEq, Repr

/-- `getRecommendations` (lines 388-420): the empty-analytics early return,
then four independent rules each appending at most one message, then the
positive fallback when nothing fired. -/
def getRecommendations (analytics : List ResumeAnalytics) (overallStats : OverallStats) :
    List Recommendation :=
  if analytics.length = 0 then [Recommendation.startLinking]
  else
    let recs : List Recommendation := []
    let topResume := getTopPerformingResume analytics
    let recs :=
      match topResume with
      | some t =>
          if analytics.length > 1 then
            recs ++ [Recommendation.topPerformer t.resumeName t.overallSuccessRate]
          else recs
      | none => recs
    let recs :=
      if overallStats.overallInterviewRate < 20 then
        recs ++ [Recommendation.improveInterviewRate]
      else recs
    let recs :=
      if overallStats.overallSuccessRate < 5 then
        recs ++ [Recommendation.improveSuccessRate]
      else recs
    let lowPerformingResumes :=
      analytics.filter (fun s => 5 ≤ s.totalApplications && s.overallSuccessRate = 0)
    let recs :=
      if lowPerformingResumes.length > 0 then
        recs ++ [Recommendation.updateOrReplace
          (lowPerformingResumes.map (fun r => r.resumeName))]
      else recs
    if recs.length = 0 then [Recommendation.greatJob] else recs

/-- The full analytics result assembled from one (applications, resumes)
snapshot pair, bundling the pure derived values the component renders. -/
structure AnalyticsResult where
  resumeAnalytics : List ResumeAnalytics
  overallStats : OverallStats
  topPerformingResume : Option ResumeAnalytics
  recommendations : List Recommendation
deriving DecidableEq, Repr

/-- `computeAnalytics`: the aggregation engine as one pure transform of the
two input snapshots. -/
def computeAnalytics (applications : List Application) (resumes : List Resume) :
    AnalyticsResult :=
  let analytics := calculateAnalytics applications resumes
  let overallStats := getOverallStats applications analytics
  { resumeAnalytics := analytics
    overallStats := overallStats
    topPerformingResume := getTopPerformingResume analytics
    recommendations := getRecommendations analytics overallStats }

/-! ## Bookkeeping invariants of the counting pass -/

/-- Invariant maintained by the counting pass for a single accumulator: the
total is the sum of the per-status counters, and no rate has been assigned
yet. -/
def TalliedInv (s : ResumeAnalytics) : Prop :=
  s.totalApplications =
      s.toApplyCount + s.appliedCount + s.interviewingCount + s.offerCount + s.rejectedCount
    ∧ s.applyRate = 0 ∧ s.interviewRate = 0 ∧ s.offerRate = 0 ∧ s.overallSuccessRate = 0

/-- Every accumulator of a stats map satisfies the bookkeeping invariant. -/
def MapInv (st : StatsMap) : Prop := ∀ p ∈ st, TalliedInv p.2

lemma talliedInv_initEntry (r : Resume) : TalliedInv (initEntry r) := by
  simp [TalliedInv, initEntry]

lemma talliedInv_bumpStatus (st : Status) (s : ResumeAnalytics) (h : TalliedInv s) :
    TalliedInv (bumpStatus st s) := by
  obtain ⟨h1, h2, h3, h4, h5⟩ := h
  cases st <;>
    exact ⟨by simp [bumpStatus]; omega, by simp [bumpStatus, h2], by simp [bumpStatus, h3],
      by simp [bumpStatus, h4], by simp [bumpStatus, h5]⟩

lemma mapInv_objInsert {st : StatsMap} (k : String) (v : ResumeAnalytics)
    (hst : MapInv st) (hv : TalliedInv v) : MapInv (objInsert k v st) := by
  induction st with
  | nil =>
      intro p hp
      simp only [objInsert, List.mem_singleton] at hp
      subst hp
      exact hv
  | cons q rest ih =>
      obtain ⟨key, w⟩ := q
      have hw : TalliedInv w := hst (key, w) (List.mem_cons_self _ _)
      have hrest : MapInv rest := fun p hp => hst p (List.mem_cons_of_mem _ hp)
      intro p hp
      by_cases hk : key = k
      · simp only [objInsert, if_pos hk, List.mem_cons] at hp
        rcases hp with h | h
        · subst h; exact hv
        · exact hrest p h
      · simp only [objInsert, if_neg hk, List.mem_cons] at hp
        rcases hp with h | h
        · subst h; exact hw
        · exact ih hrest p h

lemma mapInv_objUpdate {st : StatsMap} (k : String) (f : ResumeAnalytics → ResumeAnalytics)
    (hst : MapInv st) (hf : ∀ s, TalliedInv s → TalliedInv (f s)) :
    MapInv (objUpdate k f st) := by
  induction st with
  | nil =>
      intro p hp
      simp only [objUpdate, List.not_mem_nil] at hp
  | cons q rest ih =>
      obtain ⟨key, w⟩ := q
      have hw : TalliedInv w := hst (key, w) (List.mem_cons_self _ _)
      have hrest : MapInv rest := fun p hp => hst p (List.mem_cons_of_mem _ hp)
      intro p hp
      by_cases hk : key = k
      · simp only [objUpdate, if_pos hk, List.mem_cons] at hp
        rcases hp with h | h
        · subst h; exact hf w hw
        · exact hrest p h
      · simp only [objUpdate, if_neg hk, List.mem_cons] at hp
        rcases hp with h | h
        · subst h; exact hw
        · exact ih hrest p h

lemma mapInv_foldl_insert (l : List Resume) (st : StatsMap) (hst : MapInv st) :
    MapInv (l.foldl (fun st r => objInsert r.id (initEntry r) st) st) := by
  induction l generalizing st with
  | nil => exact hst
  | cons r rest ih =>
      simp only [List.foldl_cons]
      exact ih _ (mapInv_objInsert _ _ hst (talliedInv_initEntry r))

lemma mapInv_initStats (resumes : List Resume) : MapInv (initStats resumes) :=
  mapInv_foldl_insert resumes [] (fun p hp => absurd hp (List.not_mem_nil p))

lemma mapInv_tallyApp {st : StatsMap} (a : Application) (hst : MapInv st) :
    MapInv (tallyApp st a) := by
  unfold tallyApp
  split
  · exact hst
  · split
    · exact mapInv_objUpdate _ _ hst (talliedInv_bumpStatus a.status)
    · exact hst

lemma mapInv_foldl_tally (apps : List Application) (st : StatsMap) (hst : MapInv st) :
    MapInv (apps.foldl tallyApp st) := by
  induction apps generalizing st with
  | nil => exact hst
  | cons a rest ih => exact ih _ (mapInv_tallyApp a hst)

lemma computeRates_counts (s : ResumeAnalytics) :
    (computeRates s).totalApplications = s.totalApplications
    ∧ (computeRates s).toApplyCount = s.toApplyCount
    ∧ (computeRates s).appliedCount = s.appliedCount
    ∧ (computeRates s).interviewingCount = s.interviewingCount
    ∧ (computeRates s).offerCount = s.offerCount
    ∧ (computeRates s).rejectedCount = s.rejectedCount := by
  unfold computeRates
  split <;> simp

lemma computeRates_rates (s : ResumeAnalytics) (h : 0 < s.totalApplications) :
    (computeRates s).applyRate =
        ((s.appliedCount + s.interviewingCount + s.offerCount + s.rejectedCount : ℕ) : ℚ)
          / (s.totalApplications : ℚ) * 100
    ∧ (computeRates s).interviewRate =
        (if 0 < s.appliedCount + s.interviewingCount + s.offerCount + s.rejectedCount then
          ((s.interviewingCount : ℚ) + (s.offerCount : ℚ))
            / ((s.appliedCount + s.interviewingCount + s.offerCount + s.rejectedCount : ℕ) : ℚ)
            * 100
        else s.interviewRate)
    ∧ (computeRates s).offerRate =
        (if 0 < s.interviewingCount + s.offerCount then
          (s.offerCount : ℚ) / ((s.interviewingCount + s.offerCount : ℕ) : ℚ) * 100
        else s.offerRate)
    ∧ (computeRates s).overallSuccessRate =
        (s.offerCount : ℚ) / (s.totalApplications : ℚ) * 100 := by
  unfold computeRates
  rw [if_pos h]
  exact ⟨rfl, rfl, rfl, rfl⟩

lemma mem_calculateAnalytics {apps : List Application} {resumes : List Resume}
    {e : ResumeAnalytics} (h : e ∈ calculateAnalytics apps resumes) :
    ∃ s, TalliedInv s ∧ e = computeRates s ∧ 0 < e.totalApplications := by
  simp only [calculateAnalytics, List.mem_filter, List.mem_map, decide_eq_true_eq] at h
  obtain ⟨⟨s, ⟨p, hp, rfl⟩, rfl⟩, hpos⟩ := h
  have hinv := mapInv_foldl_tally apps (initStats resumes) (mapInv_initStats resumes) p hp
  exact ⟨p.2, hinv, rfl, hpos⟩

lemma ratio_mul_hundred_bounds {p t : ℕ} (hpt : p ≤ t) (ht : 0 < t) :
    0 ≤ (p : ℚ) / (t : ℚ) * 100 ∧ (p : ℚ) / (t : ℚ) * 100 ≤ 100 := by
  have ht' : (0 : ℚ) < (t : ℚ) := by exact_mod_cast ht
  constructor
  · positivity
  · have h1 : (p : ℚ) / (t : ℚ) ≤ 1 := by
      rw [div_le_one ht']
      exact_mod_cast hpt
    linarith

/-! ## Concrete inputs used by witnesses and scenario claims -/

def techResume : Resume :=
  { id := "r1", name := "Tech Resume", originalFileName := "tech.pdf", uploadDate := 0 }

def offerApp : Application :=
  { id := "a1", jobTitle := "Engineer", company := "Acme", status := Status.offer,
    resumeId := some "r1", createdAt := 0, updatedAt := 0 }

/-- The analytics entry produced for `techResume` from the single
application `offerApp`. -/
def offerEntry : ResumeAnalytics :=
  { resumeId := "r1", resumeName := "Tech Resume", totalApplications := 1, toApplyCount := 0,
    appliedCount := 0, interviewingCount := 0, offerCount := 1, rejectedCount := 0,
    applyRate := 100, interviewRate := 100, offerRate := 100, overallSuccessRate := 100,
    averageTimeToResponse := 0 }

/-! ## Claims -/

/-- C10: for every entry in the ResumeAnalytics list returned by
`computeAnalytics`, the per-status counts partition the total:
`totalApplications` equals the sum of the five per-status counters. -/
theorem counts_partition_total (apps : List Application) (resumes : List Resume)
    (e : ResumeAnalytics) (h : e ∈ (computeAnalytics apps resumes).resumeAnalytics) :
    e.totalApplications =
      e.toApplyCount + e.appliedCount + e.interviewingCount + e.offerCount + e.rejectedCount := by
  have h' : e ∈ calculateAnalytics apps resumes := h
  obtain ⟨s, hinv, he, hpos⟩ := mem_calculateAnalytics h'
  obtain ⟨h1, h2, h3, h4, h5, h6⟩ := computeRates_counts s
  subst he
  rw [h1, h2, h3, h4, h5, h6]
  exact hinv.1

/-- Witness for C10 on a concrete input: one resume, one linked offer
application. -/
theorem counts_partition_total_witness :
    offerEntry.totalApplications =
      offerEntry.toApplyCount + offerEntry.appliedCount + offerEntry.interviewingCount
        + offerEntry.offerCount + offerEntry.rejectedCount :=
  counts_partition_total [offerApp] [techResume] offerEntry (by
    simp [computeAnalytics, calculateAnalytics, initStats, initEntry, objInsert, objLookup,
      objUpdate, tallyApp, bumpStatus, computeRates, techResume, offerApp, offerEntry])

/-- C3: the ResumeAnalytics list returned by `computeAnalytics` contains no
entry with `totalApplications = 0`: zero-activity resumes are filtered out,
not materialized. -/
theorem no_zero_application_entry (apps : List Application) (resumes : List Resume)
    (e : ResumeAnalytics) (h : e ∈ (computeAnalytics apps resumes).resumeAnalytics) :
    e.totalApplications ≠ 0 := by
  have h' : e ∈ calculateAnalytics apps resumes := h
  obtain ⟨s, hinv, he, hpos⟩ := mem_calculateAnalytics h'
  omega

/-- Witness for C3 on a concrete input. -/
theorem no_zero_application_entry_witness : offerEntry.totalApplications ≠ 0 :=
  no_zero_application_entry [offerApp] [techResume] offerEntry (by
    simp [computeAnalytics, calculateAnalytics, initStats, initEntry, objInsert, objLookup,
      objUpdate, tallyApp, bumpStatus, computeRates, techResume, offerApp, offerEntry])

/-- C2: every rate of every entry returned by `computeAnalytics` lies in the
closed interval [0, 100]. -/
theorem rates_within_bounds (apps : List Application) (resumes : List Resume)
    (e : ResumeAnalytics) (h : e ∈ (computeAnalytics apps resumes).resumeAnalytics) :
    (0 ≤ e.applyRate ∧ e.applyRate ≤ 100) ∧ (0 ≤ e.interviewRate ∧ e.interviewRate ≤ 100)
    ∧ (0 ≤ e.offerRate ∧ e.offerRate ≤ 100)
    ∧ (0 ≤ e.overallSuccessRate ∧ e.overallSuccessRate ≤ 100) := by
  have h' : e ∈ calculateAnalytics apps resumes := h
  obtain ⟨s, hinv, he, hpos⟩ := mem_calculateAnalytics h'
  obtain ⟨hsum, har, hir, hor, hsr⟩ := hinv
  have htot : 0 < s.totalApplications := by
    have hc := (computeRates_counts s).1
    rw [he, hc] at hpos
    exact hpos
  obtain ⟨hA, hI, hO, hS⟩ := computeRates_rates s htot
  subst he
  rw [hA, hI, hO, hS]
  refine ⟨?_, ?_, ?_, ?_⟩
  · exact ratio_mul_hundred_bounds (by omega) htot
  · split_ifs with hd
    · have hcast :
          ((s.interviewingCount + s.offerCount : ℕ) : ℚ)
            = (s.interviewingCount : ℚ) + (s.offerCount : ℚ) := by push_cast; ring
      rw [← hcast]
      exact ratio_mul_hundred_bounds (by omega) hd
    · rw [hir]; norm_num
  · split_ifs with hd
    · exact ratio_mul_hundred_bounds (by omega) hd
    · rw [hor]; norm_num
  · exact ratio_mul_hundred_bounds (by omega) htot

/-- Witness for C2 on a concrete input. -/
theorem rates_within_bounds_witness :
    (0 ≤ offerEntry.applyRate ∧ offerEntry.applyRate ≤ 100)
    ∧ (0 ≤ offerEntry.interviewRate ∧ offerEntry.interviewRate ≤ 100)
    ∧ (0 ≤ offerEntry.offerRate ∧ offerEntry.offerRate ≤ 100)
    ∧ (0 ≤ offerEntry.overallSuccessRate ∧ offerEntry.overallSuccessRate ≤ 100) :=
  rates_within_bounds [offerApp] [techResume] offerEntry (by
    simp [computeAnalytics, calculateAnalytics, initStats, initEntry, objInsert, objLookup,
      objUpdate, tallyApp, bumpStatus, computeRates, techResume, offerApp, offerEntry])

/-- C4: for every entry in the `computeAnalytics` result, `interviewRate`
equals the interviewing-or-offer count divided by the applied-or-later count
(applied + interviewing + offer + rejected) times 100, and equals 0 when
that denominator is zero; over `ℚ` no NaN or infinity can arise. -/
theorem interview_rate_formula (apps : List Application) (resumes : List Resume)
    (e : ResumeAnalytics) (h : e ∈ (computeAnalytics apps resumes).resumeAnalytics) :
    e.interviewRate =
      if 0 < e.appliedCount + e.interviewingCount + e.offerCount + e.rejectedCount then
        ((e.interviewingCount : ℚ) + (e.offerCount : ℚ))
          / ((e.appliedCount + e.interviewingCount + e.offerCount + e.rejectedCount : ℕ) : ℚ)
          * 100
      else 0 := by
  have h' : e ∈ calculateAnalytics apps resumes := h
  obtain ⟨s, hinv, he, hpos⟩ := mem_calculateAnalytics h'
  have htot : 0 < s.totalApplications := by
    have hc := (computeRates_counts s).1
    rw [he, hc] at hpos
    exact hpos
  obtain ⟨-, hI, -, -⟩ := computeRates_rates s htot
  obtain ⟨h1, h2, h3, h4, h5, h6⟩ := computeRates_counts s
  subst he
  rw [hI, h3, h4, h5, h6, hinv.2.2.1]

/-- Witness for C4 on a concrete input. -/
theorem interview_rate_formula_witness :
    offerEntry.interviewRate =
      if 0 < offerEntry.appliedCount + offerEntry.interviewingCount + offerEntry.offerCount
          + offerEntry.rejectedCount then
        ((offerEntry.interviewingCount : ℚ) + (offerEntry.offerCount : ℚ))
          / ((offerEntry.appliedCount + offerEntry.interviewingCount + offerEntry.offerCount
              + offerEntry.rejectedCount : ℕ) : ℚ) * 100
      else 0 :=
  interview_rate_formula [offerApp] [techResume] offerEntry (by
    simp [computeAnalytics, calculateAnalytics, initStats, initEntry, objInsert, objLookup,
      objUpdate, tallyApp, bumpStatus, computeRates, techResume, offerApp, offerEntry])

/-! ## Dangling references never touch the per-resume accumulators -/

lemma objLookup_objInsert_none {k rid : String} {v : ResumeAnalytics} {st : StatsMap}
    (h : objLookup rid st = none) (hne : k ≠ rid) :
    objLookup rid (objInsert k v st) = none := by
  induction st with
  | nil => simp [objInsert, objLookup, hne]
  | cons q rest ih =>
      obtain ⟨key, w⟩ := q
      rw [objLookup] at h
      split_ifs at h with hkr
      rw [objInsert]
      split_ifs with hk
      · rw [objLookup, if_neg hkr]
        exact h
      · rw [objLookup, if_neg hkr]
        exact ih h

lemma objLookup_objUpdate_none {k rid : String} {f : ResumeAnalytics → ResumeAnalytics}
    {st : StatsMap} (h : objLookup rid st = none) :
    objLookup rid (objUpdate k f st) = none := by
  induction st with
  | nil => simp [objUpdate, objLookup]
  | cons q rest ih =>
      obtain ⟨key, w⟩ := q
      rw [objLookup] at h
      split_ifs at h with hkr
      rw [objUpdate]
      split_ifs with hk
      · rw [objLookup, if_neg hkr]
        exact h
      · rw [objLookup, if_neg hkr]
        exact ih h

lemma objLookup_foldl_insert_none {rid : String} (l : List Resume) (st : StatsMap)
    (hst : objLookup rid st = none) (h : ∀ r ∈ l, r.id ≠ rid) :
    objLookup rid (l.foldl (fun st r => objInsert r.id (initEntry r) st) st) = none := by
  induction l generalizing st with
  | nil => exact hst
  | cons r rest ih =>
      simp only [List.foldl_cons]
      exact ih _ (objLookup_objInsert_none hst (h r (List.mem_cons_self _ _)))
        (fun x hx => h x (List.mem_cons_of_mem _ hx))

lemma objLookup_initStats_none {rid : String} {resumes : List Resume}
    (h : ∀ r ∈ resumes, r.id ≠ rid) : objLookup rid (initStats resumes) = none :=
  objLookup_foldl_insert_none resumes [] rfl h

lemma objLookup_tallyApp_none {rid : String} {st : StatsMap} (a : Application)
    (h : objLookup rid st = none) : objLookup rid (tallyApp st a) = none := by
  unfold tallyApp
  split
  · exact h
  · split
    · exact objLookup_objUpdate_none h
    · exact h

lemma objLookup_foldl_tally_none {rid : String} (apps : List Application) (st : StatsMap)
    (h : objLookup rid st = none) : objLookup rid (apps.foldl tallyApp st) = none := by
  induction apps generalizing st with
  | nil => exact h
  | cons a rest ih => exact ih _ (objLookup_tallyApp_none a h)

lemma tallyApp_skip {st : StatsMap} {a : Application} {rid : String}
    (h1 : a.resumeId = some rid) (h2 : objLookup rid st = none) : tallyApp st a = st := by
  simp [tallyApp, h1, h2]

/-- C1 (amended): an Application whose resumeId is non-null but matches no
Resume.id contributes to no ResumeAnalytics entry, and it is counted in
`overallStats.totalApplications` exactly when its resumeId is also
non-empty — the code filters with JavaScript truthiness, so the
empty-string reference storable by the edit path is not counted. -/
theorem dangling_reference_handling (l1 l2 : List Application) (a : Application)
    (resumes : List Resume) (rid : String) (h1 : a.resumeId = some rid)
    (h2 : ∀ r ∈ resumes, r.id ≠ rid) :
    (computeAnalytics (l1 ++ a :: l2) resumes).resumeAnalytics
      = (computeAnalytics (l1 ++ l2) resumes).resumeAnalytics
    ∧ (computeAnalytics (l1 ++ a :: l2) resumes).overallStats.totalApplications
      = (computeAnalytics (l1 ++ l2) resumes).overallStats.totalApplications
        + (if rid = "" then 0 else 1) := by
  have hnone : objLookup rid (l1.foldl tallyApp (initStats resumes)) = none :=
    objLookup_foldl_tally_none l1 _ (objLookup_initStats_none h2)
  have hfold : (l1 ++ a :: l2).foldl tallyApp (initStats resumes)
      = (l1 ++ l2).foldl tallyApp (initStats resumes) := by
    rw [List.foldl_append, List.foldl_append, List.foldl_cons, tallyApp_skip h1 hnone]
  have hcalc : calculateAnalytics (l1 ++ a :: l2) resumes
      = calculateAnalytics (l1 ++ l2) resumes := by
    unfold calculateAnalytics
    rw [hfold]
  refine ⟨hcalc, ?_⟩
  show ((l1 ++ a :: l2).filter (fun x => truthyId x.resumeId)).length
      = ((l1 ++ l2).filter (fun x => truthyId x.resumeId)).length + (if rid = "" then 0 else 1)
  rw [List.filter_append, List.filter_append, List.filter_cons]
  by_cases hr : rid = ""
  · have ht : truthyId a.resumeId = false := by simp [truthyId, h1, hr]
    simp [ht, hr]
  · have ht : truthyId a.resumeId = true := by simp [truthyId, h1, hr]
    simp only [ht, if_true, if_neg hr, List.length_append, List.length_cons]
    omega

/-- An application whose resumeId points at no known resume. -/
def danglingApp : Application :=
  { id := "a9", jobTitle := "Engineer", company := "Acme", status := Status.applied,
    resumeId := some "ghost", createdAt := 0, updatedAt := 0 }

/-- Witness for the amended C1 on a concrete input. -/
theorem dangling_reference_handling_witness :
    (computeAnalytics ([] ++ danglingApp :: [offerApp]) [techResume]).resumeAnalytics
      = (computeAnalytics ([] ++ [offerApp]) [techResume]).resumeAnalytics
    ∧ OverallStats.totalApplications
        (computeAnalytics ([] ++ danglingApp :: [offerApp]) [techResume]).overallStats
      = (computeAnalytics ([] ++ [offerApp]) [techResume]).overallStats.totalApplications
        + (if "ghost" = "" then 0 else 1) :=
  dangling_reference_handling [] [offerApp] danglingApp [techResume] "ghost" rfl (by decide)

/-- The empty-string reference the edit path can store: non-null, and
matching no Resume.id. -/
def emptyRefApp : Application :=
  { id := "a0", jobTitle := "Engineer", company := "Acme", status := Status.applied,
    resumeId := some "", createdAt := 0, updatedAt := 0 }

/-- C1 counterexample: with applications = [emptyRefApp] and resumes = [],
the resumeId is non-null and matches no Resume.id, and the application is
excluded from every ResumeAnalytics entry, but `overallStats.totalApplications`
is 0, not 1 — it is not counted, refuting the claim as stated. -/
theorem dangling_reference_claim_counterexample :
    emptyRefApp.resumeId ≠ none
    ∧ (∀ r ∈ ([] : List Resume), r.id ≠ "")
    ∧ (computeAnalytics [emptyRefApp] []).resumeAnalytics = []
    ∧ (computeAnalytics [emptyRefApp] []).overallStats.totalApplications = 0 := by
  refine ⟨by simp [emptyRefApp], by simp, ?_, ?_⟩
  · simp [computeAnalytics, calculateAnalytics, initStats, tallyApp, emptyRefApp]
  · simp [computeAnalytics, getOverallStats, truthyId, emptyRefApp, calculateAnalytics,
      initStats, tallyApp]

/-! ## Recommendations and the top performer -/

/-- A concrete overall-stats value for witnesses. -/
def sampleStats : OverallStats :=
  { totalApplications := 0, overallSuccessRate := 0, overallInterviewRate := 0,
    averageApplicationsPerResume := 0 }

/-- C5: for every overallStats value, `getRecommendations` on an empty
analytics list returns exactly the single start-linking prompt; no other
rule contributes. -/
theorem recommendations_on_empty_analytics (stats : OverallStats) :
    getRecommendations [] stats = [Recommendation.startLinking]
    ∧ (getRecommendations [] stats).length = 1 :=
  ⟨rfl, rfl⟩

/-- Witness for C5 at a concrete overall-stats value. -/
theorem recommendations_on_empty_analytics_witness :
    getRecommendations [] sampleStats = [Recommendation.startLinking]
    ∧ (getRecommendations [] sampleStats).length = 1 :=
  recommendations_on_empty_analytics sampleStats

def resumeOne : Resume :=
  { id := "r1", name := "Resume One", originalFileName := "one.pdf", uploadDate := 0 }

def resumeTwo : Resume :=
  { id := "r2", name := "Resume Two", originalFileName := "two.pdf", uploadDate := 0 }

def mkApp (i : String) (st : Status) (rid : String) : Application :=
  { id := i, jobTitle := "Engineer", company := "Acme", status := st,
    resumeId := some rid, createdAt := 0, updatedAt := 0 }

/-- Scenario 4 of the spec: five applications with no offer on the first
resume, two applications with one offer on the second. -/
def scenarioApps : List Application :=
  [mkApp "c1" Status.applied "r1", mkApp "c2" Status.applied "r1",
   mkApp "c3" Status.applied "r1", mkApp "c4" Status.applied "r1",
   mkApp "c5" Status.applied "r1",
   mkApp "c6" Status.applied "r2", mkApp "c7" Status.offer "r2"]

/-- C6: recommendation rules accumulate rather than short-circuit: on the
two-resume scenario (r1 with 5 applications and 0 offers, r2 with 2
applications and 1 offer) the result contains both the prioritize-the-top-
performer message for r2 (success rate 50) and the update-or-replace
message naming r1. -/
theorem recommendation_rules_accumulate :
    Recommendation.topPerformer "Resume Two" 50
        ∈ (computeAnalytics scenarioApps [resumeOne, resumeTwo]).recommendations
    ∧ Recommendation.updateOrReplace ["Resume One"]
        ∈ (computeAnalytics scenarioApps [resumeOne, resumeTwo]).recommendations := by
  have hrecs : (computeAnalytics scenarioApps [resumeOne, resumeTwo]).recommendations
      = [Recommendation.topPerformer "Resume Two" 50, Recommendation.improveInterviewRate,
         Recommendation.updateOrReplace ["Resume One"]] := by
    simp [computeAnalytics, calculateAnalytics, initStats, initEntry, objInsert, objLookup,
      objUpdate, tallyApp, bumpStatus, computeRates, getOverallStats, getRecommendations,
      getTopPerformingResume, truthyId, scenarioApps, mkApp, resumeOne, resumeTwo]
    norm_num
  rw [hrecs]
  exact ⟨by simp, by simp⟩

/-- The `Array.reduce` body of `getTopPerformingResume`, run from a seed. -/
def bestOf (x : ResumeAnalytics) (xs : List ResumeAnalytics) : ResumeAnalytics :=
  xs.foldl
    (fun best current =>
      if best.overallSuccessRate < current.overallSuccessRate then current else best)
    x

lemma bestOf_cons (x c : ResumeAnalytics) (rest : List ResumeAnalytics) :
    bestOf x (c :: rest)
      = bestOf (if x.overallSuccessRate < c.overallSuccessRate then c else x) rest := rfl

lemma getTopPerformingResume_cons (x : ResumeAnalytics) (xs : List ResumeAnalytics) :
    getTopPerformingResume (x :: xs) = some (bestOf x xs) := rfl

lemma bestOf_max (xs : List ResumeAnalytics) : ∀ (x y : ResumeAnalytics),
    y ∈ x :: xs → y.overallSuccessRate ≤ (bestOf x xs).overallSuccessRate := by
  induction xs with
  | nil =>
      intro x y hy
      have hxy : y = x := by simpa using hy
      subst hxy
      exact le_refl _
  | cons c rest ih =>
      intro x y hy
      rw [bestOf_cons]
      have hz : x.overallSuccessRate
            ≤ (if x.overallSuccessRate < c.overallSuccessRate then c
                else x).overallSuccessRate
          ∧ c.overallSuccessRate
            ≤ (if x.overallSuccessRate < c.overallSuccessRate then c
                else x).overallSuccessRate := by
        split_ifs with hxc
        · exact ⟨le_of_lt hxc, le_refl _⟩
        · exact ⟨le_refl _, le_of_not_lt hxc⟩
      have hzbest :
          (if x.overallSuccessRate < c.overallSuccessRate then c
              else x).overallSuccessRate
            ≤ (bestOf (if x.overallSuccessRate < c.overallSuccessRate then c else x)
                rest).overallSuccessRate :=
        ih _ _ (List.mem_cons_self _ _)
      rcases List.mem_cons.mp hy with rfl | hy'
      · exact le_trans hz.1 hzbest
      rcases List.mem_cons.mp hy' with rfl | hy''
      · exact le_trans hz.2 hzbest
      · exact ih _ _ (List.mem_cons_of_mem _ hy'')

/-- The search predicate used to express first-encountered maximality:
whether an entry reaches the success rate `t`. -/
def reachesRate (t : ℚ) (y : ResumeAnalytics) : Bool := decide (t ≤ y.overallSuccessRate)

lemma bestOf_first (xs : List ResumeAnalytics) : ∀ (x : ResumeAnalytics),
    (x :: xs).find? (reachesRate (bestOf x xs).overallSuccessRate)
      = some (bestOf x xs) := by
  induction xs with
  | nil =>
      intro x
      simp [bestOf, reachesRate]
  | cons c rest ih =>
      intro x
      rw [bestOf_cons]
      by_cases hxc : x.overallSuccessRate < c.overallSuccessRate
      · rw [if_pos hxc]
        have hcb : c.overallSuccessRate ≤ (bestOf c rest).overallSuccessRate :=
          bestOf_max rest c c (List.mem_cons_self _ _)
        have hxfalse : ¬ (reachesRate (bestOf c rest).overallSuccessRate x = true) := by
          simp only [reachesRate, decide_eq_true_eq, not_le]
          exact lt_of_lt_of_le hxc hcb
        rw [List.find?_cons_of_neg _ hxfalse]
        exact ih c
      · rw [if_neg hxc]
        have ihx := ih x
        by_cases hpx : reachesRate (bestOf x rest).overallSuccessRate x = true
        · rw [List.find?_cons_of_pos _ hpx]
          rw [List.find?_cons_of_pos _ hpx] at ihx
          exact ihx
        · have hxlt : x.overallSuccessRate < (bestOf x rest).overallSuccessRate := by
            simpa [reachesRate, not_le] using hpx
          have hpc : ¬ (reachesRate (bestOf x rest).overallSuccessRate c = true) := by
            simp only [reachesRate, decide_eq_true_eq, not_le]
            exact lt_of_le_of_lt (le_of_not_lt hxc) hxlt
          rw [List.find?_cons_of_neg _ hpx, List.find?_cons_of_neg _ hpc]
          rw [List.find?_cons_of_neg _ hpx] at ihx
          exact ihx

/-- C7: for every non-empty analytics list, `getTopPerformingResume` returns
an entry of the list whose `overallSuccessRate` is maximal, and on ties the
first-encountered maximal entry in iteration order is selected (it is the
first list element whose rate reaches the maximum). -/
theorem top_performing_resume_spec (analytics : List ResumeAnalytics) (t : ResumeAnalytics)
    (h : getTopPerformingResume analytics = some t) :
    t ∈ analytics
    ∧ (∀ y ∈ analytics, y.overallSuccessRate ≤ t.overallSuccessRate)
    ∧ analytics.find? (reachesRate t.overallSuccessRate) = some t := by
  cases analytics with
  | nil => exact absurd h (by simp [getTopPerformingResume])
  | cons x xs =>
      rw [getTopPerformingResume_cons] at h
      have ht : bestOf x xs = t := Option.some.inj h
      subst ht
      exact ⟨List.mem_of_find?_eq_some (bestOf_first xs x),
        fun y hy => bestOf_max xs x y hy, bestOf_first xs x⟩

/-- Witness for C7 at a concrete one-element analytics list. -/
theorem top_performing_resume_spec_witness :
    offerEntry ∈ [offerEntry]
    ∧ (∀ y ∈ [offerEntry], y.overallSuccessRate ≤ offerEntry.overallSuccessRate)
    ∧ [offerEntry].find? (reachesRate offerEntry.overallSuccessRate) = some offerEntry :=
  top_performing_resume_spec [offerEntry] offerEntry rfl

/-! ## Chart series and determinism -/

/-- Three applications, one of them an offer: the offers-to-applications
ratio is exactly 1/3. -/
def thirdApps : List Application :=
  [mkApp "b1" Status.offer "r1", mkApp "b2" Status.applied "r1",
   mkApp "b3" Status.rejected "r1"]

/-- C8: the rate metrics of the chart series are rounded to one decimal
place while the applications metric is the raw count: on the 1/3-offers
scenario the success-rate entry (100/3 = 33.333... percent) renders as
33.3 and the applications entry as the unrounded count 3. -/
theorem chart_value_rounding :
    (getChartData ChartMetric.success
        (computeAnalytics thirdApps [techResume]).resumeAnalytics).map ChartPoint.value
      = [(333 : ℚ) / 10]
    ∧ (getChartData ChartMetric.applications
        (computeAnalytics thirdApps [techResume]).resumeAnalytics).map ChartPoint.value
      = [(3 : ℚ)]
    ∧ (computeAnalytics thirdApps [techResume]).resumeAnalytics.map
        ResumeAnalytics.overallSuccessRate = [(100 : ℚ) / 3] := by
  have hentries : (computeAnalytics thirdApps [techResume]).resumeAnalytics
      = [{ resumeId := "r1", resumeName := "Tech Resume", totalApplications := 3,
           toApplyCount := 0, appliedCount := 1, interviewingCount := 0, offerCount := 1,
           rejectedCount := 1, applyRate := 100, interviewRate := 100 / 3,
           offerRate := 100, overallSuccessRate := 100 / 3, averageTimeToResponse := 0 }] := by
    simp [computeAnalytics, calculateAnalytics, initStats, initEntry, objInsert, objLookup,
      objUpdate, tallyApp, bumpStatus, computeRates, thirdApps, mkApp, techResume]
    norm_num
  rw [hentries]
  refine ⟨?_, ?_, ?_⟩
  · simp [getChartData, truncateName, round_eq]
    norm_num [round_eq]
  · simp [getChartData]
  · simp

/-- C9: `computeAnalytics` is a pure, deterministic transform: two
invocations on identical inputs yield identical outputs in every component
of the result. -/
theorem computeAnalytics_deterministic (apps1 apps2 : List Application)
    (res1 res2 : List Resume) (h1 : apps1 = apps2) (h2 : res1 = res2) :
    computeAnalytics apps1 res1 = computeAnalytics apps2 res2
    ∧ (computeAnalytics apps1 res1).resumeAnalytics
        = (computeAnalytics apps2 res2).resumeAnalytics
    ∧ (computeAnalytics apps1 res1).overallStats = (computeAnalytics apps2 res2).overallStats
    ∧ (computeAnalytics apps1 res1).topPerformingResume
        = (computeAnalytics apps2 res2).topPerformingResume
    ∧ (computeAnalytics apps1 res1).recommendations
        = (computeAnalytics apps2 res2).recommendations := by
  subst h1
  subst h2
  exact ⟨rfl, rfl, rfl, rfl, rfl⟩

/-- Witness for C9 at concrete identical inputs. -/
theorem computeAnalytics_deterministic_witness :
    computeAnalytics [offerApp] [techResume] = computeAnalytics [offerApp] [techResume]
    ∧ (computeAnalytics [offerApp] [techResume]).resumeAnalytics
        = (computeAnalytics [offerApp] [techResume]).resumeAnalytics
    ∧ (computeAnalytics [offerApp] [techResume]).overallStats
        = (computeAnalytics [offerApp] [techResume]).overallStats
    ∧ (computeAnalytics [offerApp] [techResume]).topPerformingResume
        = (computeAnalytics [offerApp] [techResume]).topPerformingResume
    ∧ (computeAnalytics [offerApp] [techResume]).recommendations
        = (computeAnalytics [offerApp] [techResume]).recommendations :=
  computeAnalytics_deterministic [offerApp] [offerApp] [techResume] [techResume] rfl rfl

end GradTracker
